import Mathlib

/-!
Verification development for the hello-bott repository.

The two source files are `Manager` (command dispatch and the built-in
workday commands) and `libs/Message.js` (message helpers and the error
reply renderer).  Text is modelled as a list of characters (`JStr`), and
the JavaScript string primitives the source uses (`indexOf`, `substr`,
`trim`, `toLowerCase`, literal template concatenation) are modelled by
explicit functions below, faithful to their ECMAScript behaviour on the
inputs the source feeds them.
-/

/-- JavaScript strings, modelled as lists of characters. -/
abbrev JStr := List Char

/-- Index of the first occurrence of character `c`, or `none`. -/
def jsIndexOfAux (c : Char) : JStr → Option Nat
  | [] => none
  | x :: l => if x = c then some 0 else (jsIndexOfAux c l).map (· + 1)

/-- JavaScript `s.indexOf(c)` for a single character: the index of the first
occurrence, or `-1` when there is none. -/
def jsIndexOf (s : JStr) (c : Char) : Int :=
  match jsIndexOfAux c s with
  | some n => (n : Int)
  | none => -1

/-- JavaScript `s.substr(0, len)`: a non-positive length yields the empty
string, otherwise the first `len` characters (clamped at the end). -/
def jsSubstrTo (s : JStr) (len : Int) : JStr :=
  if len ≤ 0 then [] else s.take len.toNat

/-- JavaScript `s.substr(start)` for the non-negative starts the source uses
(`indexOf(..) + 1` is `0` when nothing was found). -/
def jsSubstrFrom (s : JStr) (start : Int) : JStr :=
  s.drop start.toNat

/-- JavaScript `s.trim()`: whitespace removed from both ends. -/
def jsTrim (s : JStr) : JStr :=
  ((s.dropWhile Char.isWhitespace).reverse.dropWhile Char.isWhitespace).reverse

/-- JavaScript `s.indexOf(p) == 0`, i.e. `s` starts with the string `p`. -/
def jsStartsWith : JStr → JStr → Bool
  | _, [] => true
  | [], _ :: _ => false
  | c :: l, p :: ps => c = p && jsStartsWith l ps

/-- JavaScript `s.toLowerCase()` (ASCII range, the only one the source uses). -/
def jsToLower (s : JStr) : JStr := s.map Char.toLower

/-- The `<@id>` mention token used throughout the source. -/
def mentionOf (id : JStr) : JStr := '<' :: '@' :: id ++ ['>']

/-- The command/argument split of `Manager.dispatchCommand` (part_000
lines 65-70): `command = '_' + (text.substr(0, text.indexOf(' ')) || text)`
and the remainder after the first space (empty when there is no space). -/
def extractCommandManager (text : JStr) : JStr × JStr :=
  let i := jsIndexOf text ' '
  let head := jsSubstrTo text i
  let command := '_' :: (if head = [] then text else head)
  let rest := if i ≠ -1 then jsSubstrFrom text (i + 1) else []
  (command, rest)

/-- The command/argument split of `Message.extractCommand` (Message.js
lines 30-46): identical to the Manager one except that the token is
lower-cased before the underscore tag is attached. -/
def extractCommandMessage (text : JStr) : JStr × JStr :=
  let i := jsIndexOf text ' '
  let head := jsSubstrTo text i
  let command := '_' :: jsToLower (if head = [] then text else head)
  let rest := if i ≠ -1 then jsSubstrFrom text (i + 1) else []
  (command, rest)

/-! ## Errors and the dispatch error renderers -/

/-- A JavaScript error as the source observes it: its `name` and `message`. -/
structure JsError where
  name : JStr
  message : JStr
deriving DecidableEq

/-- The name of the domain error class (`LeakableBotError`). -/
def leakName : JStr := "LeakableBotError".toList

/-- The `TypeError` raised when `this[command]` is not a function. -/
def typeError : JsError :=
  ⟨"TypeError".toList, "this[command] is not a function".toList⟩

/-- The reply text built by the catch blocks of `Manager.dispatchCommand`
(part_000 lines 87-88) and of `_start`/`_break`/`_continue`/`_end`:
`<@user>, ` followed by the error message for a `LeakableBotError` and by
the fixed `problems captain!` for every other error. -/
def dispatchErrorText (user : JStr) (err : JsError) : JStr :=
  let errorMessage := if err.name = leakName then err.message else "problems captain!".toList
  mentionOf user ++ ", ".toList ++ errorMessage

/-- The reply text sent by `Message.throw` (Message.js lines 53-68):
a `returnText` chosen by error name (a command-does-not-exist text for
`TypeError`, the mention plus message for `LeakableBotError`, a generic
text otherwise), then `<@user>,` concatenated with `returnText.toLowerCase()`. -/
def Message.throwText (user command : JStr) (error : JsError) : JStr :=
  let returnText :=
    if error.name = "TypeError".toList then
      mentionOf user ++ ", command \x27".toList ++ command ++ "\x27 does not exist.".toList
    else if error.name = leakName then
      mentionOf user ++ ", ".toList ++ error.message
    else
      "Problems captain!".toList
  mentionOf user ++ ",".toList ++ jsToLower returnText

/-! ## The Manager: registry, member table, listener and dispatcher -/

/-- An external command module as the `Manager` constructor sees it: the only
capability it inspects is the presence of a `dispatchCommand` member
(part_000 line 22). -/
structure CommandModule where
  hasDispatchCommand : Bool
deriving DecidableEq

/-- The `Manager` constructor body (part_000 lines 15-30): each module with a
`dispatchCommand` capability is stored in `this.commands` under `'_' + key`;
a module without one makes the constructor throw
(`Module does not have dispatchCommand() method.`). -/
def Manager.mkCommands : List (JStr × CommandModule) → Except JStr (List (JStr × CommandModule))
  | [] => .ok []
  | (key, m) :: rest =>
    if m.hasDispatchCommand then
      match Manager.mkCommands rest with
      | .ok cs => .ok (('_' :: key, m) :: cs)
      | .error e => .error e
    else
      .error "Module does not have dispatchCommand() method.".toList

/-- Property lookup on the `this.commands` object: the stored module for the
key, or `none`. -/
def lookupCommand : List (JStr × CommandModule) → JStr → Option CommandModule
  | [], _ => none
  | (k, v) :: rest, key => if k = key then some v else lookupCommand rest key

/-- The members reachable on a `Manager` instance by `this[command]`: the
instance properties `bot` and `commands` and the prototype methods. -/
inductive ManagerMember where
  | bot
  | commands
  | ctor
  | listen
  | dispatchCommand
  | send
  | mstart
  | mbreak
  | mcontinue
  | mend
deriving DecidableEq

/-- The JavaScript property name of each `Manager` member. -/
def ManagerMember.jsName : ManagerMember → JStr
  | .bot => "bot".toList
  | .commands => "commands".toList
  | .ctor => "constructor".toList
  | .listen => "listen".toList
  | .dispatchCommand => "dispatchCommand".toList
  | .send => "send".toList
  | .mstart => "_start".toList
  | .mbreak => "_break".toList
  | .mcontinue => "_continue".toList
  | .mend => "_end".toList

/-- Whether invoking the member as `this[command](...)` succeeds as a call:
`bot` and `commands` are plain data (calling them throws a `TypeError`), and
calling the class constructor without `new` also throws a `TypeError`. -/
def ManagerMember.callable : ManagerMember → Bool
  | .bot => false
  | .commands => false
  | .ctor => false
  | _ => true

/-- All members of a `Manager` instance. -/
def managerMembers : List ManagerMember :=
  [.bot, .commands, .ctor, .listen, .dispatchCommand, .send,
   .mstart, .mbreak, .mcontinue, .mend]

/-- `this[command]` on a `Manager` instance. -/
def managerLookup (key : JStr) : Option ManagerMember :=
  managerMembers.find? (fun m => decide (m.jsName = key))

/-- An inbound message `{text, user, channel}` as the listener receives it. -/
structure InMessage where
  text : JStr
  user : JStr
  channel : JStr
deriving DecidableEq

/-- The channel test of `Manager.listen` (part_000 line 43): the message is
processed only when `message.channel[0]` is `'C'` or `'D'` (an empty channel
id yields `undefined`, which also fails the test). -/
def channelAccepted (channel : JStr) : Bool :=
  match channel.head? with
  | some c => c = 'C' || c = 'D'
  | none => false

/-- The text transformation of `Manager.listen` (part_000 lines 40-50): the
raw text is trimmed; when the raw text starts with the bot mention
(`indexOf == 0`), everything up to and including the first space of the
trimmed text is removed (nothing is removed when it has no space, since
`indexOf(' ') + 1` is `0`). -/
def listenText (botId : JStr) (raw : JStr) : JStr :=
  let messageText := jsTrim raw
  if jsStartsWith raw (mentionOf botId) then
    jsSubstrFrom messageText (jsIndexOf messageText ' ' + 1)
  else
    messageText

/-- What the message listener does with one inbound message: drop it, or
hand it (with rewritten text) to `dispatchCommand`. -/
inductive ListenAction where
  | drop
  | dispatch (m : InMessage)
deriving DecidableEq

/-- `Manager.listen`'s per-message handler (part_000 lines 36-55). -/
def Manager.listen (botId : JStr) (m : InMessage) : ListenAction :=
  if channelAccepted m.channel then
    .dispatch { m with text := listenText botId m.text }
  else
    .drop

/-- The observable outcome of `Manager.dispatchCommand`: forward to a
registered module (with the argument text and the sender id), invoke a
built-in member, or send the catch-block error reply to the channel. -/
inductive DispatchResult where
  | toModule (key : JStr) (m : CommandModule) (text : JStr) (user : JStr)
  | builtin (mem : ManagerMember) (text user channel : JStr)
  | errorReply (text channel : JStr)
deriving DecidableEq

/-- `Manager.dispatchCommand` (part_000 lines 63-90): extract the key and the
argument text; a registered module under the key wins and is returned to;
otherwise `this[command]` is looked up and invoked — when that member does
not exist or is not callable, the thrown `TypeError` is caught and the
catch-block reply is sent. -/
def Manager.dispatchCommand (commands : List (JStr × CommandModule)) (m : InMessage) :
    DispatchResult :=
  let command := (extractCommandManager m.text).1
  let text := (extractCommandManager m.text).2
  match lookupCommand commands command with
  | some module => .toModule command module text m.user
  | none =>
    match managerLookup command with
    | some mem =>
      if mem.callable then
        .builtin mem text m.user m.channel
      else
        .errorReply (dispatchErrorText m.user typeError) m.channel
    | none => .errorReply (dispatchErrorText m.user typeError) m.channel

/-! ## The workday store and the `_start` built-in -/

/-- One interval of a workday. The source builds intervals as
`{begin: now, description: text}`; the close timestamp (`end` in the data
model) is `endAt` here because `end` is reserved in Lean. -/
structure WInterval where
  begin : Nat
  endAt : Option Nat
  description : JStr
deriving DecidableEq

/-- A persisted workday record, as `_start` constructs it
(`{slackId, begin, intervals}`); `endedAt` is the day-level close marker the
spec calls `endedAt`. -/
structure Workday where
  slackId : JStr
  begin : Nat
  intervals : List WInterval
  endedAt : Option Nat
deriving DecidableEq

/-- Modelled from the spec: `Workday.isLastDayEnded`, the persistence query of
the missing `models/workday` module (src contains only its caller).  Per the
spec it is the "is last session for owner ended or absent" check, which
fails with a domain error (`SessionAlreadyOpen`) when the owner's last
workday is not ended, and succeeds otherwise. -/
def isLastDayEnded (store : List Workday) (slackId : JStr) : Except JsError Unit :=
  match (store.filter (fun w => decide (w.slackId = slackId))).getLast? with
  | none => .ok ()
  | some w =>
    match w.endedAt with
    | some _ => .ok ()
    | none => .error ⟨leakName, "you have an already open session.".toList⟩

/-- The outcome of one `_start` call: the resulting store and the single
reply (text and target channel) it sends. -/
structure StartOutcome where
  store : List Workday
  reply : JStr
  channel : JStr
deriving DecidableEq

/-- `Manager._start` (part_000 lines 100-121): check `isLastDayEnded`; on
success build the new workday with one open interval and save it (modelled
from the spec as appending the record to the store), then send the success
reply; on failure the catch block sends the error reply and nothing is
saved. -/
def Manager.runStart (store : List Workday) (now : Nat)
    (text slackId channel : JStr) : StartOutcome :=
  match isLastDayEnded store slackId with
  | .ok _ =>
    let newWorkday : Workday := ⟨slackId, now, [⟨now, none, text⟩], none⟩
    ⟨store ++ [newWorkday],
     mentionOf slackId ++ "\x27s workday is just started with ".toList ++ text ++ ".".toList,
     channel⟩
  | .error err =>
    ⟨store, dispatchErrorText slackId err, channel⟩

/-- Session-store effect of a dispatch outcome: only the built-in workday
handlers write session records (per the source, the module branch and the
error branch only send replies). The concrete effect of each built-in is
irrelevant here and is abstracted as `builtinEffect`. -/
def storeAfterDispatch (builtinEffect : ManagerMember → JStr → JStr → List Workday → List Workday)
    (store : List Workday) (r : DispatchResult) : List Workday :=
  match r with
  | .builtin mem text user _ => builtinEffect mem text user store
  | _ => store

/-- Modelled from the spec words of §4.1, for comparison with the source
normalizer: split on the first whitespace run, lower-case the leading token,
drop the whole whitespace run before the remainder. -/
def specNormalizeText (t : JStr) : JStr × JStr :=
  let tok := t.takeWhile (fun c => !c.isWhitespace)
  let rest := (t.drop tok.length).dropWhile (fun c => c.isWhitespace)
  (jsToLower tok, rest)

/-! ## Helper lemmas about the string primitives -/

theorem jsIndexOfAux_append_cons (c : Char) (a b : JStr) (ha : ∀ x ∈ a, x ≠ c) :
    jsIndexOfAux c (a ++ c :: b) = some a.length := by
  induction a with
  | nil => simp [jsIndexOfAux]
  | cons x l ih =>
    have hx : x ≠ c := ha x (by simp)
    have hrest : ∀ y ∈ l, y ≠ c := fun y hy => ha y (by simp [hy])
    simp [jsIndexOfAux, hx, ih hrest]

theorem jsIndexOfAux_eq_none (c : Char) (s : JStr) (h : ∀ x ∈ s, x ≠ c) :
    jsIndexOfAux c s = none := by
  induction s with
  | nil => rfl
  | cons x l ih =>
    have hx : x ≠ c := h x (by simp)
    have hrest : ∀ y ∈ l, y ≠ c := fun y hy => h y (by simp [hy])
    simp [jsIndexOfAux, hx, ih hrest]

theorem jTake_length_append (a b : JStr) : (a ++ b).take a.length = a := by
  induction a with
  | nil => simp
  | cons x l ih => simp [ih]

theorem jDrop_append_cons (a b : JStr) (c : Char) : (a ++ c :: b).drop (a.length + 1) = b := by
  induction a with
  | nil => simp
  | cons x l ih => simp [ih]

theorem jsStartsWith_append (p q : JStr) : jsStartsWith (p ++ q) p = true := by
  induction p with
  | nil => cases q <;> rfl
  | cons x l ih => simp [jsStartsWith, ih]

/-- Characterization of the Manager split when the text has a space: the
leading space-free token (non-empty) becomes the key with `'_'` prepended
and the remainder after that first space is the argument text. -/
theorem extractCommandManager_split (a b : JStr) (ha : ∀ x ∈ a, x ≠ ' ') (hne : a ≠ []) :
    extractCommandManager (a ++ ' ' :: b) = ('_' :: a, b) := by
  have hidx : jsIndexOf (a ++ ' ' :: b) ' ' = (a.length : Int) := by
    unfold jsIndexOf
    rw [jsIndexOfAux_append_cons ' ' a b ha]
  have hlen : ¬ ((a.length : Int) ≤ 0) := by
    have : 0 < a.length := List.length_pos.mpr hne
    omega
  have hhead : jsSubstrTo (a ++ ' ' :: b) (a.length : Int) = a := by
    unfold jsSubstrTo
    rw [if_neg hlen]
    simp [jTake_length_append]
  have hrest : jsSubstrFrom (a ++ ' ' :: b) ((a.length : Int) + 1) = b := by
    unfold jsSubstrFrom
    have : ((a.length : Int) + 1).toNat = a.length + 1 := by omega
    rw [this, jDrop_append_cons]
  have hne1 : (a.length : Int) ≠ -1 := by omega
  simp only [extractCommandManager, hidx, hhead, hrest, if_neg hne, hne1, if_pos]
  simp

/-- Characterization of the Manager split when the text has no space: the
whole text becomes the key with `'_'` prepended and the argument is empty. -/
theorem extractCommandManager_nospace (t : JStr) (ht : ∀ x ∈ t, x ≠ ' ') :
    extractCommandManager t = ('_' :: t, []) := by
  have hidx : jsIndexOf t ' ' = -1 := by
    unfold jsIndexOf
    rw [jsIndexOfAux_eq_none ' ' t ht]
  simp [extractCommandManager, hidx, jsSubstrTo]

/-- Same characterization for `Message.extractCommand`, which lower-cases
the token. -/
theorem extractCommandMessage_split (a b : JStr) (ha : ∀ x ∈ a, x ≠ ' ') (hne : a ≠ []) :
    extractCommandMessage (a ++ ' ' :: b) = ('_' :: jsToLower a, b) := by
  have hidx : jsIndexOf (a ++ ' ' :: b) ' ' = (a.length : Int) := by
    unfold jsIndexOf
    rw [jsIndexOfAux_append_cons ' ' a b ha]
  have hlen : ¬ ((a.length : Int) ≤ 0) := by
    have : 0 < a.length := List.length_pos.mpr hne
    omega
  have hhead : jsSubstrTo (a ++ ' ' :: b) (a.length : Int) = a := by
    unfold jsSubstrTo
    rw [if_neg hlen]
    simp [jTake_length_append]
  have hrest : jsSubstrFrom (a ++ ' ' :: b) ((a.length : Int) + 1) = b := by
    unfold jsSubstrFrom
    have : ((a.length : Int) + 1).toNat = a.length + 1 := by omega
    rw [this, jDrop_append_cons]
  have hne1 : (a.length : Int) ≠ -1 := by omega
  simp only [extractCommandMessage, hidx, hhead, hrest, if_neg hne, hne1, if_pos]
  simp


/-! ## Claims -/

/-- Claim C3: for every inbound message whose channel identifier's first
character is neither `'C'` nor `'D'`, the message listener returns before
dispatch — `dispatchCommand` is never invoked for that message and no reply
is sent (the listener's action is `drop`). -/
theorem claim_C3 (botId : JStr) (m : InMessage)
    (h : channelAccepted m.channel = false) :
    Manager.listen botId m = .drop := by
  unfold Manager.listen
  simp [h]

theorem claim_C3_witness :
    Manager.listen "B1".toList ⟨"start work".toList, "U1".toList, "G123".toList⟩
      = .drop :=
  claim_C3 "B1".toList ⟨"start work".toList, "U1".toList, "G123".toList⟩ (by decide)

/-- Claim C4: for every command key that has an entry in the registered
modules map, dispatch forwards to that module's `dispatchCommand` and
returns, never attempting the built-in self-lookup fallback: registry
entries take precedence over a built-in of the same name. -/
theorem claim_C4 (commands : List (JStr × CommandModule)) (m : InMessage)
    (mod : CommandModule)
    (h : lookupCommand commands (extractCommandManager m.text).1 = some mod) :
    Manager.dispatchCommand commands m =
      .toModule (extractCommandManager m.text).1 mod
        (extractCommandManager m.text).2 m.user := by
  unfold Manager.dispatchCommand
  simp [h]

theorem claim_C4_witness :
    Manager.dispatchCommand [("_hello".toList, ⟨true⟩)]
        ⟨"hello world".toList, "U1".toList, "C1".toList⟩
      = .toModule (extractCommandManager "hello world".toList).1 ⟨true⟩
          (extractCommandManager "hello world".toList).2 "U1".toList :=
  claim_C4 [("_hello".toList, ⟨true⟩)]
    ⟨"hello world".toList, "U1".toList, "C1".toList⟩ ⟨true⟩ (by decide)

/-- Claim C6, counterexample: the source split is not the split the claim
describes.  On the text `START  design` (two spaces) the spec-worded
normalizer yields the lower-cased token `start` and the run-stripped
remainder `design`, while `Manager.dispatchCommand`'s own extraction — the
one used for handler lookup — yields the unlowered key `_START` and keeps
the second space in the remainder. -/
theorem claim_C6_counterexample :
    specNormalizeText "START  design".toList = ("start".toList, "design".toList) ∧
    extractCommandManager "START  design".toList = ("_START".toList, " design".toList) ∧
    extractCommandManager "START  design".toList ≠ ('_' :: "start".toList, "design".toList) := by
  decide

/-- Claim C6 (amended): the split is on the first space character only, and
the key used for handler lookup keeps the token's case.  For a space-free
non-empty token `a`, extracting `a ++ ' ' :: b` gives key `'_' :: a` (no
lower-casing in `Manager.dispatchCommand`) with argument text exactly `b`
(any further whitespace retained); a space-free text is its own key with
empty argument; `Message.extractCommand` is the same split with the token
lower-cased. -/
theorem claim_C6_amended (a b t : JStr) (ha : ∀ x ∈ a, x ≠ ' ') (hne : a ≠ [])
    (ht : ∀ x ∈ t, x ≠ ' ') :
    extractCommandManager (a ++ ' ' :: b) = ('_' :: a, b) ∧
    extractCommandManager t = ('_' :: t, []) ∧
    extractCommandMessage (a ++ ' ' :: b) = ('_' :: jsToLower a, b) :=
  ⟨extractCommandManager_split a b ha hne,
   extractCommandManager_nospace t ht,
   extractCommandMessage_split a b ha hne⟩

theorem claim_C6_witness :
    extractCommandManager ("Start".toList ++ ' ' :: " my  day".toList)
      = ('_' :: "Start".toList, " my  day".toList) ∧
    extractCommandManager "frobnicate".toList = ('_' :: "frobnicate".toList, []) ∧
    extractCommandMessage ("Start".toList ++ ' ' :: " my  day".toList)
      = ('_' :: jsToLower "Start".toList, " my  day".toList) :=
  claim_C6_amended "Start".toList " my  day".toList "frobnicate".toList
    (by decide) (by decide) (by decide)

/-- Claim C10: the key handed to the self-lookup fallback always begins with
`'_'` (the extraction prepends it), so the fallback can only ever invoke
Manager members whose JavaScript names begin with `'_'`; in particular the
unprefixed members `send`, `listen`, `dispatchCommand`, `bot` and `commands`
are never reachable as commands from message text. -/
theorem claim_C10 (commands : List (JStr × CommandModule)) (m : InMessage) :
    ((extractCommandManager m.text).1).head? = some '_' ∧
    (∀ mem text user channel,
      Manager.dispatchCommand commands m = .builtin mem text user channel →
      mem.jsName.head? = some '_' ∧
      mem ≠ .send ∧ mem ≠ .listen ∧ mem ≠ .dispatchCommand ∧
      mem ≠ .bot ∧ mem ≠ .commands) := by
  constructor
  · rfl
  · intro mem text user channel h
    unfold Manager.dispatchCommand at h
    cases hl : lookupCommand commands (extractCommandManager m.text).1 with
    | some mod => simp [hl] at h
    | none =>
      cases hm : managerLookup (extractCommandManager m.text).1 with
      | none => simp [hl, hm] at h
      | some mem' =>
        simp only [hl, hm] at h
        by_cases hc : mem'.callable = true
        · rw [if_pos hc] at h
          have hmem : mem' = mem := by
            cases h
            rfl
          have hname : mem'.jsName = (extractCommandManager m.text).1 := by
            have := List.find?_some hm
            exact of_decide_eq_true this
          have hhd : mem.jsName.head? = some '_' := by
            rw [← hmem, hname]
            rfl
          refine ⟨hhd, ?_, ?_, ?_, ?_, ?_⟩ <;>
            (intro heq; rw [heq] at hhd; simp [ManagerMember.jsName] at hhd)
        · rw [if_neg hc] at h
          simp at h

theorem claim_C10_witness :
    ((extractCommandManager "start now".toList).1).head? = some '_' ∧
    (ManagerMember.mstart.jsName.head? = some '_' ∧
     ManagerMember.mstart ≠ .send ∧ ManagerMember.mstart ≠ .listen ∧
     ManagerMember.mstart ≠ .dispatchCommand ∧
     ManagerMember.mstart ≠ .bot ∧ ManagerMember.mstart ≠ .commands) :=
  ⟨(claim_C10 [] ⟨"start now".toList, "U1".toList, "C1".toList⟩).1,
   (claim_C10 [] ⟨"start now".toList, "U1".toList, "C1".toList⟩).2
     .mstart "now".toList "U1".toList "C1".toList (by decide)⟩

/-- Claim C2, counterexample: the repository's error reply renderer
`Message.throw` does not render a domain error's message directly — it
lower-cases the whole reply and prefixes the sender mention twice — and it
renders a `TypeError` (not a domain error) with a command-specific text
instead of a fixed generic message.  For the domain error with message
`You have an already open session.` the reply does not contain that message
rendered directly. -/
theorem claim_C2_counterexample :
    Message.throwText "U1".toList "_start".toList
        ⟨leakName, "You have an already open session.".toList⟩
      = "<@U1>,<@u1>, you have an already open session.".toList ∧
    ¬ ("You have an already open session.".toList <:+:
        Message.throwText "U1".toList "_start".toList
          ⟨leakName, "You have an already open session.".toList⟩) ∧
    Message.throwText "U1".toList "_frobnicate".toList typeError
      = "<@U1>,<@u1>, command \x27_frobnicate\x27 does not exist.".toList := by
  decide

/-- Claim C2 (amended): in the catch blocks of `Manager.dispatchCommand` and
of the built-in handlers, a `LeakableBotError`'s message is rendered
directly after the sender mention, and every other error yields the fixed
`problems captain!` text after the mention, with no text taken from the
error object.  The `Message.throw` renderer deviates: it lower-cases the
whole reply (so the domain message is not verbatim), writes the mention
twice, and gives `TypeError` a command-specific text (see the
counterexample). -/
theorem claim_C2_amended (user : JStr) (err : JsError) :
    (err.name = leakName →
      dispatchErrorText user err = mentionOf user ++ ", ".toList ++ err.message) ∧
    (err.name ≠ leakName →
      dispatchErrorText user err = mentionOf user ++ ", problems captain!".toList) := by
  constructor
  · intro h
    unfold dispatchErrorText
    rw [if_pos h]
  · intro h
    show mentionOf user ++ ", ".toList ++
        (if err.name = leakName then err.message else "problems captain!".toList)
      = mentionOf user ++ ", problems captain!".toList
    rw [if_neg h, List.append_assoc]
    rw [(by decide : ", ".toList ++ "problems captain!".toList = ", problems captain!".toList)]

theorem claim_C2_witness :
    dispatchErrorText "U1".toList ⟨leakName, "no open session.".toList⟩
      = mentionOf "U1".toList ++ ", ".toList ++ "no open session.".toList ∧
    dispatchErrorText "U1".toList ⟨"RangeError".toList, "stack overflow at line 7".toList⟩
      = mentionOf "U1".toList ++ ", problems captain!".toList :=
  ⟨(claim_C2_amended "U1".toList ⟨leakName, "no open session.".toList⟩).1 rfl,
   (claim_C2_amended "U1".toList ⟨"RangeError".toList, "stack overflow at line 7".toList⟩).2
     (by decide)⟩

/-- Claim C5, counterexample: dispatching the unknown command `frobnicate`
(no registry entry, no built-in) produces the generic `problems captain!`
reply — the same text every internal error produces — which conveys nothing
about the command being unknown: it contains neither the command key nor
any unknown-command wording. -/
theorem claim_C5_counterexample :
    Manager.dispatchCommand [] ⟨"frobnicate".toList, "U1".toList, "C1".toList⟩
      = .errorReply "<@U1>, problems captain!".toList "C1".toList ∧
    Manager.dispatchCommand [] ⟨"frobnicate".toList, "U1".toList, "C1".toList⟩
      = .errorReply (dispatchErrorText "U1".toList
          ⟨"RangeError".toList, "some internal failure".toList⟩) "C1".toList ∧
    ¬ ("frobnicate".toList <:+: "<@U1>, problems captain!".toList) ∧
    ¬ ("unknown".toList <:+: "<@U1>, problems captain!".toList) ∧
    ¬ ("does not exist".toList <:+: "<@U1>, problems captain!".toList) := by
  decide

/-- Claim C5 (amended): for every command key with no matching registry
entry and no matching built-in member, dispatching produces exactly one
reply to the sender — the generic `<@user>, problems captain!` error reply
(the failed self-lookup raises a `TypeError`, which is not a domain error,
so the generic text is sent rather than an unknown-command-specific one) —
and no session state is mutated (no built-in store effect is applied). -/
theorem claim_C5_amended (commands : List (JStr × CommandModule)) (m : InMessage)
    (h1 : lookupCommand commands (extractCommandManager m.text).1 = none)
    (h2 : managerLookup (extractCommandManager m.text).1 = none) :
    Manager.dispatchCommand commands m =
      .errorReply (mentionOf m.user ++ ", problems captain!".toList) m.channel ∧
    ∀ builtinEffect store,
      storeAfterDispatch builtinEffect store (Manager.dispatchCommand commands m) = store := by
  have hres : Manager.dispatchCommand commands m
      = .errorReply (dispatchErrorText m.user typeError) m.channel := by
    unfold Manager.dispatchCommand
    simp [h1, h2]
  have htext : dispatchErrorText m.user typeError
      = mentionOf m.user ++ ", problems captain!".toList := by
    show mentionOf m.user ++ ", ".toList ++
        (if typeError.name = leakName then typeError.message else "problems captain!".toList)
      = mentionOf m.user ++ ", problems captain!".toList
    rw [if_neg (by decide : ¬ typeError.name = leakName), List.append_assoc]
    rw [(by decide : ", ".toList ++ "problems captain!".toList = ", problems captain!".toList)]
  refine ⟨by rw [hres, htext], ?_⟩
  intro builtinEffect store
  rw [hres]
  rfl

theorem claim_C5_witness :
    Manager.dispatchCommand [] ⟨"plan".toList, "U2".toList, "D2".toList⟩
      = .errorReply (mentionOf "U2".toList ++ ", problems captain!".toList) "D2".toList ∧
    ∀ builtinEffect store,
      storeAfterDispatch builtinEffect store
        (Manager.dispatchCommand [] ⟨"plan".toList, "U2".toList, "D2".toList⟩) = store :=
  claim_C5_amended [] ⟨"plan".toList, "U2".toList, "D2".toList⟩ rfl (by decide)

theorem isLastDayEnded_error_name (store : List Workday) (sid : JStr) (err : JsError)
    (h : isLastDayEnded store sid = .error err) : err.name = leakName := by
  unfold isLastDayEnded at h
  split at h
  · simp at h
  · split at h
    · simp at h
    · injection h with h1
      rw [← h1]

/-- Claim C1: if a start command is issued while the owner's last workday is
not ended (the `isLastDayEnded` check fails), the `_start` invocation sends
the error reply and persists no new workday record — the save step is never
reached, so the resulting store is exactly the old one. -/
theorem claim_C1 (store : List Workday) (now : Nat) (text slackId channel : JStr)
    (err : JsError) (h : isLastDayEnded store slackId = .error err) :
    Manager.runStart store now text slackId channel
      = ⟨store, mentionOf slackId ++ ", ".toList ++ err.message, channel⟩ := by
  have hname := isLastDayEnded_error_name store slackId err h
  have htext : dispatchErrorText slackId err
      = mentionOf slackId ++ ", ".toList ++ err.message := by
    show mentionOf slackId ++ ", ".toList ++
        (if err.name = leakName then err.message else "problems captain!".toList)
      = mentionOf slackId ++ ", ".toList ++ err.message
    rw [if_pos hname]
  unfold Manager.runStart
  rw [h]
  show (⟨store, dispatchErrorText slackId err, channel⟩ : StartOutcome)
    = ⟨store, mentionOf slackId ++ ", ".toList ++ err.message, channel⟩
  rw [htext]

theorem claim_C1_witness :
    Manager.runStart
        (Manager.runStart [] 0 "design".toList "U1".toList "C1".toList).store
        5 "plan".toList "U1".toList "C1".toList
      = ⟨(Manager.runStart [] 0 "design".toList "U1".toList "C1".toList).store,
         mentionOf "U1".toList ++ ", ".toList
           ++ "you have an already open session.".toList,
         "C1".toList⟩ :=
  claim_C1 (Manager.runStart [] 0 "design".toList "U1".toList "C1".toList).store
    5 "plan".toList "U1".toList "C1".toList
    ⟨leakName, "you have an already open session.".toList⟩ rfl

/-- The trim of `mention ++ ' ' :: rest` is itself when the mention starts
with a non-whitespace character and `rest` ends in a non-whitespace
character. -/
theorem jsTrim_fixed (botId rest : JStr) (c : Char) (l : JStr)
    (hrev : rest.reverse = c :: l) (hc : ¬ c.isWhitespace) :
    jsTrim (mentionOf botId ++ ' ' :: rest) = mentionOf botId ++ ' ' :: rest := by
  have hcb : ¬ (Char.isWhitespace c = true) := by simpa using hc
  have h1 : List.dropWhile Char.isWhitespace (mentionOf botId ++ ' ' :: rest)
      = mentionOf botId ++ ' ' :: rest := by
    unfold mentionOf
    simp only [List.cons_append]
    rw [List.dropWhile_cons, if_neg (by decide : ¬ (Char.isWhitespace '<' = true))]
  have h2 : List.dropWhile Char.isWhitespace (mentionOf botId ++ ' ' :: rest).reverse
      = (mentionOf botId ++ ' ' :: rest).reverse := by
    rw [List.reverse_append, List.reverse_cons, hrev]
    simp only [List.cons_append]
    rw [List.dropWhile_cons, if_neg hcb]
  unfold jsTrim
  rw [h1, h2, List.reverse_reverse]

/-- Claim C7, counterexample: a text that does not begin with the bot
mention does not reach command extraction unchanged — the listener trims
it first.  The raw text `start ` (trailing space) arrives at dispatch as
`start`. -/
theorem claim_C7_counterexample :
    jsStartsWith "start ".toList (mentionOf "B1".toList) = false ∧
    Manager.listen "B1".toList ⟨"start ".toList, "U1".toList, "C1".toList⟩
      = .dispatch ⟨"start".toList, "U1".toList, "C1".toList⟩ ∧
    "start".toList ≠ "start ".toList := by
  decide

/-- Claim C7 (amended): the listener first trims the raw text.  If the raw
text does not begin with the bot mention, the trimmed raw text (not the raw
input itself) reaches command extraction.  If it does begin with the
mention, everything up to and including the first space of the trimmed text
is removed; in the well-formed case `mention ++ ' ' ++ rest` (whitespace-free
bot id, `rest` ending in a non-whitespace character) exactly the mention and
the single following separator are removed. -/
theorem claim_C7_amended (botId : JStr) (m : InMessage) (rest : JStr) (c : Char) (l : JStr)
    (hch : channelAccepted m.channel = true)
    (hnm : jsStartsWith m.text (mentionOf botId) = false)
    (hbot : ∀ x ∈ botId, ¬ x.isWhitespace)
    (hrev : rest.reverse = c :: l) (hc : ¬ c.isWhitespace) :
    Manager.listen botId m = .dispatch { m with text := jsTrim m.text } ∧
    Manager.listen botId { m with text := mentionOf botId ++ ' ' :: rest }
      = .dispatch { m with text := rest } := by
  constructor
  · unfold Manager.listen
    rw [if_pos hch]
    have hlt : listenText botId m.text = jsTrim m.text := by
      show (if jsStartsWith m.text (mentionOf botId) then
              jsSubstrFrom (jsTrim m.text) (jsIndexOf (jsTrim m.text) ' ' + 1)
            else jsTrim m.text) = jsTrim m.text
      rw [hnm]
      simp
    rw [hlt]
  · have hmention : jsStartsWith (mentionOf botId ++ ' ' :: rest) (mentionOf botId) = true :=
      jsStartsWith_append (mentionOf botId) (' ' :: rest)
    have htrim := jsTrim_fixed botId rest c l hrev hc
    have hspace : ∀ x ∈ mentionOf botId, x ≠ ' ' := by
      intro x hx
      unfold mentionOf at hx
      simp at hx
      rcases hx with h | h | h | h
      · subst h; decide
      · subst h; decide
      · intro he; subst he; exact hbot _ h (by decide)
      · subst h; decide
    have hidx : jsIndexOf (mentionOf botId ++ ' ' :: rest) ' '
        = ((mentionOf botId).length : Int) := by
      unfold jsIndexOf
      rw [jsIndexOfAux_append_cons ' ' _ rest hspace]
    have hlt : listenText botId (mentionOf botId ++ ' ' :: rest) = rest := by
      show (if jsStartsWith (mentionOf botId ++ ' ' :: rest) (mentionOf botId) then
              jsSubstrFrom (jsTrim (mentionOf botId ++ ' ' :: rest))
                (jsIndexOf (jsTrim (mentionOf botId ++ ' ' :: rest)) ' ' + 1)
            else jsTrim (mentionOf botId ++ ' ' :: rest)) = rest
      rw [hmention, if_pos rfl, htrim, hidx]
      unfold jsSubstrFrom
      rw [(by omega : (((mentionOf botId).length : Int) + 1).toNat
            = (mentionOf botId).length + 1)]
      exact jDrop_append_cons _ rest ' '
    show (if channelAccepted m.channel then
            ListenAction.dispatch
              { m with text := listenText botId (mentionOf botId ++ ' ' :: rest) }
          else .drop) = .dispatch { m with text := rest }
    rw [if_pos hch, hlt]

theorem claim_C7_witness :
    Manager.listen "B1".toList ⟨" hi  ".toList, "U1".toList, "D9".toList⟩
      = .dispatch ⟨jsTrim " hi  ".toList, "U1".toList, "D9".toList⟩ ∧
    Manager.listen "B1".toList
        ⟨mentionOf "B1".toList ++ ' ' :: "start work".toList, "U1".toList, "D9".toList⟩
      = .dispatch ⟨"start work".toList, "U1".toList, "D9".toList⟩ :=
  claim_C7_amended "B1".toList ⟨" hi  ".toList, "U1".toList, "D9".toList⟩
    "start work".toList 'k' "row trats".toList
    (by decide) (by decide) (by decide) (by decide) (by decide)

theorem mkCommands_error_of_bad (mods : List (JStr × CommandModule))
    (km : JStr × CommandModule) (hmem : km ∈ mods)
    (hbad : km.2.hasDispatchCommand = false) :
    ∃ e, Manager.mkCommands mods = .error e := by
  induction mods with
  | nil => cases hmem
  | cons p rest ih =>
    obtain ⟨k, mm⟩ := p
    by_cases hmm : mm.hasDispatchCommand = true
    · have hkm : km ∈ rest := by
        cases hmem with
        | head => simp at hbad; simp [hbad] at hmm
        | tail _ h => exact h
      obtain ⟨e, he⟩ := ih hkm
      refine ⟨e, ?_⟩
      simp only [Manager.mkCommands]
      rw [if_pos hmm, he]
    · refine ⟨"Module does not have dispatchCommand() method.".toList, ?_⟩
      simp only [Manager.mkCommands]
      rw [if_neg hmm]

theorem mkCommands_ok_mem (mods : List (JStr × CommandModule))
    (cs : List (JStr × CommandModule)) (hok : Manager.mkCommands mods = .ok cs) :
    ∀ km ∈ mods, ('_' :: km.1, km.2) ∈ cs ∧ km.2.hasDispatchCommand = true := by
  induction mods generalizing cs with
  | nil => intro km h; cases h
  | cons p rest ih =>
    obtain ⟨k, mm⟩ := p
    simp only [Manager.mkCommands] at hok
    by_cases hmm : mm.hasDispatchCommand = true
    · rw [if_pos hmm] at hok
      cases hrec : Manager.mkCommands rest with
      | ok cs' =>
        rw [hrec] at hok
        injection hok with h1
        subst h1
        intro km hkm
        cases hkm with
        | head => exact ⟨by simp, hmm⟩
        | tail _ h =>
          have := ih cs' hrec km h
          exact ⟨List.mem_cons_of_mem _ this.1, this.2⟩
      | error e => rw [hrec] at hok; cases hok
    · rw [if_neg hmm] at hok; cases hok

theorem mkCommands_ok_entries (mods : List (JStr × CommandModule))
    (cs : List (JStr × CommandModule)) (hok : Manager.mkCommands mods = .ok cs) :
    ∀ entry ∈ cs, entry.2.hasDispatchCommand = true := by
  induction mods generalizing cs with
  | nil =>
    simp only [Manager.mkCommands] at hok
    injection hok with h1
    subst h1
    intro e he
    cases he
  | cons p rest ih =>
    obtain ⟨k, mm⟩ := p
    simp only [Manager.mkCommands] at hok
    by_cases hmm : mm.hasDispatchCommand = true
    · rw [if_pos hmm] at hok
      cases hrec : Manager.mkCommands rest with
      | ok cs' =>
        rw [hrec] at hok
        injection hok with h1
        subst h1
        intro entry he
        cases he with
        | head => exact hmm
        | tail _ h => exact ih cs' hrec entry h
      | error e => rw [hrec] at hok; cases hok
    · rw [if_neg hmm] at hok; cases hok

theorem lookupCommand_mem (cs : List (JStr × CommandModule)) (key : JStr)
    (mod : CommandModule) (h : lookupCommand cs key = some mod) :
    ∃ k, (k, mod) ∈ cs := by
  induction cs with
  | nil => cases h
  | cons p rest ih =>
    obtain ⟨k, v⟩ := p
    simp only [lookupCommand] at h
    by_cases hk : k = key
    · rw [if_pos hk] at h
      injection h with h1
      subst h1
      exact ⟨k, by simp⟩
    · rw [if_neg hk] at h
      obtain ⟨k', hmem⟩ := ih h
      exact ⟨k', List.mem_cons_of_mem _ hmem⟩

/-- Claim C8: a module collection containing some module without the
`dispatchCommand` capability makes the constructor throw; when construction
succeeds, every module is entered in the command map under `'_' + key`,
every stored entry has the capability, and hence any dispatch-time registry
hit yields a module with `dispatchCommand`. -/
theorem claim_C8 (mods : List (JStr × CommandModule)) :
    ((∃ km ∈ mods, km.2.hasDispatchCommand = false) →
      ∃ e, Manager.mkCommands mods = .error e) ∧
    (∀ cs, Manager.mkCommands mods = .ok cs →
      (∀ km ∈ mods, ('_' :: km.1, km.2) ∈ cs ∧ km.2.hasDispatchCommand = true) ∧
      (∀ key mod, lookupCommand cs key = some mod → mod.hasDispatchCommand = true)) := by
  refine ⟨?_, ?_⟩
  · rintro ⟨km, hmem, hbad⟩
    exact mkCommands_error_of_bad mods km hmem hbad
  · intro cs hok
    refine ⟨mkCommands_ok_mem mods cs hok, ?_⟩
    intro key mod hl
    obtain ⟨k, hmem⟩ := lookupCommand_mem cs key mod hl
    exact mkCommands_ok_entries mods cs hok (k, mod) hmem

theorem claim_C8_witness :
    (∃ e, Manager.mkCommands [("hello".toList, ⟨false⟩)] = .error e) ∧
    (('_' :: "hello".toList, (⟨true⟩ : CommandModule))
        ∈ [('_' :: "hello".toList, (⟨true⟩ : CommandModule))] ∧
     (⟨true⟩ : CommandModule).hasDispatchCommand = true) :=
  ⟨(claim_C8 [("hello".toList, ⟨false⟩)]).1 ⟨("hello".toList, ⟨false⟩), by decide, rfl⟩,
   ((claim_C8 [("hello".toList, ⟨true⟩)]).2 [('_' :: "hello".toList, ⟨true⟩)] rfl).1
     ("hello".toList, ⟨true⟩) (by decide)⟩

/-- Claim C9, counterexample: registering an external module under the name
`start` — which collides with the built-in `_start` member — is not detected
and not reported: the constructor succeeds, and at dispatch time the
registry entry silently shadows the built-in. -/
theorem claim_C9_counterexample :
    managerLookup ('_' :: "start".toList) = some ManagerMember.mstart ∧
    Manager.mkCommands [("start".toList, ⟨true⟩)]
      = .ok [('_' :: "start".toList, ⟨true⟩)] ∧
    Manager.dispatchCommand [('_' :: "start".toList, ⟨true⟩)]
        ⟨"start now".toList, "U1".toList, "C1".toList⟩
      = .toModule ('_' :: "start".toList) ⟨true⟩ "now".toList "U1".toList :=
  ⟨by decide, rfl, by decide⟩

/-- Claim C9 (amended): duplicate or colliding registrations are not
detected at startup.  The constructor accepts any module with the
`dispatchCommand` capability, even when its namespaced key names an
existing built-in `Manager` member; the conflict is resolved silently at
dispatch time by the registry-first lookup order. -/
theorem claim_C9_amended (key : JStr) (mod : CommandModule)
    (hcap : mod.hasDispatchCommand = true)
    (_hcol : managerLookup ('_' :: key) ≠ none) :
    Manager.mkCommands [(key, mod)] = .ok [('_' :: key, mod)] := by
  simp only [Manager.mkCommands]
  rw [if_pos hcap]

theorem claim_C9_witness :
    Manager.mkCommands [("end".toList, (⟨true⟩ : CommandModule))]
      = .ok [('_' :: "end".toList, (⟨true⟩ : CommandModule))] :=
  claim_C9_amended "end".toList ⟨true⟩ rfl (by decide)
